import Mathlib

/-!
A shallow embedding of `src/compress.js` (class `Compress`): an image
compression pipeline that validates the input MIME type, decodes the image,
fixes EXIF orientation, progressively downscales it to fit the configured
bounds, re-encodes it, and keeps the original bytes when re-encoding does
not shrink the file.

Host capabilities (DOM image decoding, canvas pixel operations, EXIF
reading, the JPEG/PNG/WebP codecs) are modelled as parameters (`Caps`); the
pipeline control flow, the MIME gates, the scale computation, the
progressive downscale loop and the size guard are embedded faithfully from
the source.  JavaScript numbers are idealised as `ℚ` where the source only
divides, takes minima and compares, and as `ℝ` where it uses `Math.log` and
`Math.pow`; the truncation `x | 0` applied to a nonnegative value is
`Nat.floor`.
-/

/-! ## Constants (`MIME_TYPES`, `MAX_STEPS`, `SCALE_FACTOR`, …) -/

def MIME_PNG : String := "image/png"

def MIME_JPEG : String := "image/jpeg"

def MIME_WEBP : String := "image/webp"

/-- Source constant `MAX_STEPS = 4`. -/
def MAX_STEPS : ℤ := 4

/-- Source constant `SCALE_FACTOR = Math.log(2)`. -/
noncomputable def SCALE_FACTOR : ℝ := Real.log 2

/-- Source constant `SUPPORT_MIME_TYPES`: the values of `MIME_TYPES`, in key order. -/
def SUPPORT_MIME_TYPES : List String := [MIME_PNG, MIME_JPEG, MIME_WEBP]

/-- Source constant `DEFAULT_TYPE = MIME_TYPES.JPEG`. -/
def DEFAULT_TYPE : String := MIME_JPEG

/-- Source function `isSupportedType(type)`: membership in `SUPPORT_MIME_TYPES`. -/
def isSupportedType (t : String) : Bool := SUPPORT_MIME_TYPES.contains t

/-- Helper for the regex test `type.match(/^image/)`: does the second list
begin with the first one. -/
def matchBeginsWith : List Char → List Char → Bool
  | [], _ => true
  | _ :: _, [] => false
  | p :: ps, c :: cs => p == c && matchBeginsWith ps cs

/-- The validation test `file.type.match(/^image/)` from `process`. -/
def matchesImage (t : String) : Bool := matchBeginsWith "image".data t.data

/-! ## Data model -/

/-- The input file: a declared media type plus its payload bytes
(`file.type`, `file.size = bytes.length`). -/
structure File where
  type : String
  bytes : List ℕ
deriving DecidableEq

/-- A `Blob` as produced by `dataURLToBlob` (or the input file viewed as a
blob): a media type plus payload bytes. -/
structure Blob where
  type : String
  bytes : List ℕ
deriving DecidableEq

/-- An image surface (decoded `Image` or `canvas`): its dimensions plus an
abstract token standing for the pixel contents. -/
structure Canvas where
  width : ℕ
  height : ℕ
  data : ℕ
deriving DecidableEq

/-- The recognised configuration options with their defaults
(`maxWidth: 1600, maxHeight: 1600, quality: 0.92`). -/
structure CompressionConfig where
  maxWidth : ℚ
  maxHeight : ℚ
  quality : ℚ
deriving DecidableEq

/-- The config object `Object.assign` builds when no option is given. -/
def defaultConfig : CompressionConfig := ⟨1600, 1600, 92 / 100⟩

/-- One half of the returned outcome: a blob plus the width and height
spread next to it (`{ blob, ...dimension }`). -/
structure Entry where
  blob : Blob
  width : ℕ
  height : ℕ
deriving DecidableEq

/-- The resolved value of `process`: `{ dist, source }`. -/
structure Outcome where
  dist : Entry
  source : Entry
deriving DecidableEq

/-- The ways the promise returned by `process` can reject. -/
inductive PError
  | unsupportedType (t : String)
  | imageLoadError
  | undefinedCanvas
deriving DecidableEq

/-- Host capabilities the pipeline consumes: image decoding
(`getOriginImage`; `none` models the `onerror` path), EXIF orientation
normalisation (`getOriginInfo`, producing the canonical canvas, never
failing), the per-step `clear` + `context.drawImage` pixel work of the
downscale loop (`resample`, applied to the output type, the current pixel
token and the source/destination dimensions), and encoding
(`toDataURL` composed with `dataURLToBlob`, yielding the candidate bytes
for a surface, target type and quality). -/
structure Caps where
  getOriginImage : File → Option Canvas
  getOriginInfo : Canvas → Canvas
  resample : String → ℕ → ℕ → ℕ → ℕ → ℕ → ℕ
  encode : Canvas → String → ℚ → List ℕ

/-! ## SizeGuard (lines 60–63 of the source) -/

/-- The size-guard decision: keep the candidate unless it is strictly
larger than the original (`if (distBlob.size > file.size) { distBlob =
file; distDimension = srcDimension; }`). -/
def sizeGuard (origBlob : Blob) (origDim : ℕ × ℕ) (candBlob : Blob) (candDim : ℕ × ℕ) :
    Blob × (ℕ × ℕ) :=
  if candBlob.bytes.length > origBlob.bytes.length then (origBlob, origDim)
  else (candBlob, candDim)

/-! ## Scale computation (line 52 of the source) -/

/-- Line 52: `scale = Math.min(1, maxWidth / canvas.width, maxHeight / canvas.height)`.
In JavaScript a division by a zero dimension yields `Infinity`, which never
attains the minimum; with a positive bound this is reproduced by letting
that operand degenerate to the outer bound `1`. -/
def scaleFor (cfg : CompressionConfig) (w h : ℕ) : ℚ :=
  min 1 (min (if w = 0 then 1 else cfg.maxWidth / w) (if h = 0 then 1 else cfg.maxHeight / h))

/-! ## Progressive downscale (`drawImage`, lines 120–178 of the source) -/

/-- Line 126: `steps = Math.min(MAX_STEPS, Math.ceil((1 / scale) / SCALE_FACTOR))`. -/
noncomputable def stepsFor (scale : ℝ) : ℕ :=
  (min MAX_STEPS ⌈(1 / scale) / SCALE_FACTOR⌉).toNat

/-- Line 128: `factor = Math.pow(scale, 1 / steps)`. -/
noncomputable def factorFor (scale : ℝ) : ℝ :=
  scale ^ ((1 : ℝ) / (stepsFor scale : ℝ))

/-- The `while (i < steps)` loop of `drawImage`, recursing on the number of
remaining iterations.  Each pass computes `dw = width * factor | 0` and
`dh = height * factor | 0`, clears and redraws (abstracted by `resample`),
and on the final pass resizes the working canvas to `(dw, dh)` and commits
the pixel data; falling off the end of the loop (only possible with zero
iterations remaining) is JavaScript `undefined`, modelled as `none`. -/
noncomputable def drawLoop (resample : String → ℕ → ℕ → ℕ → ℕ → ℕ → ℕ)
    (outputType : String) (factor : ℝ) :
    ℕ → ℕ → ℕ → ℕ → Option Canvas
  | _, _, _, 0 => none
  | pix, w, h, n + 1 =>
    let dw := ⌊(w : ℝ) * factor⌋₊
    let dh := ⌊(h : ℝ) * factor⌋₊
    let d := resample outputType pix w h dw dh
    if n = 0 then some ⟨dw, dh, d⟩
    else drawLoop resample outputType factor d dw dh n

/-- Source method `drawImage(source, scale)`: identity pass-through at `scale === 1`,
otherwise the progressive loop over `stepsFor`/`factorFor`. -/
noncomputable def drawImage (resample : String → ℕ → ℕ → ℕ → ℕ → ℕ → ℕ)
    (outputType : String) (source : Canvas) (scale : ℚ) : Option Canvas :=
  if scale = 1 then some source
  else drawLoop resample outputType (factorFor (scale : ℝ))
    source.data source.width source.height (stepsFor (scale : ℝ))

/-- The per-step `(dw, dh)` dimension pairs the downscale loop produces,
in order, starting from dimensions `(w, h)` with `n` iterations left. -/
noncomputable def stepDimsAux (factor : ℝ) : ℕ → ℕ → ℕ → List (ℕ × ℕ)
  | _, _, 0 => []
  | w, h, n + 1 =>
    let dw := ⌊(w : ℝ) * factor⌋₊
    let dh := ⌊(h : ℝ) * factor⌋₊
    (dw, dh) :: stepDimsAux factor dw dh n

/-- All dimension pairs the pipeline produces for a canonical canvas of
dimensions `(w, h)` under config `cfg`: just `(w, h)` on the `scale === 1`
pass-through, otherwise every per-step pair of the downscale loop (the
last of which is the final surface's committed dimension). -/
noncomputable def pipelineDims (cfg : CompressionConfig) (w h : ℕ) : List (ℕ × ℕ) :=
  if scaleFor cfg w h = 1 then [(w, h)]
  else stepDimsAux (factorFor ((scaleFor cfg w h : ℚ) : ℝ)) w h
    (stepsFor ((scaleFor cfg w h : ℚ) : ℝ))

/-! ## The pipeline (`process`, lines 31–75 of the source) -/

/-- The value of `outputType` as the successful paths use it: the file's own type when
supported, otherwise `DEFAULT_TYPE` (lines 32 and 39–42). -/
def outputTypeFor (t : String) : String :=
  if isSupportedType t then t else DEFAULT_TYPE

/-- Source method `process(file)`.  The boolean in the result records whether the
non-fatal `console.warn` fallback signal was emitted.  Failure of the
decode capability rejects with the image-load error; `drawImage` coming
back `undefined` would make the following `.then` throw, modelled as the
`undefinedCanvas` rejection. -/
noncomputable def process (caps : Caps) (cfg : CompressionConfig) (file : File) :
    Except PError (Outcome × Bool) :=
  if matchesImage file.type then
    let outputType := outputTypeFor file.type
    let warned := !isSupportedType file.type
    match caps.getOriginImage file with
    | none => Except.error PError.imageLoadError
    | some img =>
      let srcDim : ℕ × ℕ := (img.width, img.height)
      let canvas := caps.getOriginInfo img
      let scale := scaleFor cfg canvas.width canvas.height
      match drawImage caps.resample outputType canvas scale with
      | none => Except.error PError.undefinedCanvas
      | some result =>
        let distBytes := caps.encode result outputType cfg.quality
        let guarded := sizeGuard ⟨file.type, file.bytes⟩ srcDim ⟨outputType, distBytes⟩
          (result.width, result.height)
        Except.ok
          (⟨⟨guarded.1, guarded.2.1, guarded.2.2⟩,
            ⟨⟨file.type, file.bytes⟩, srcDim.1, srcDim.2⟩⟩, warned)
  else Except.error (PError.unsupportedType file.type)

/-! ## Instance state -/

/-- A pipeline instance: the immutable config plus the one mutable field
the source actually has, `this.outputType`. -/
structure PipelineInstance where
  config : CompressionConfig
  outputType : String
deriving DecidableEq

/-- The writes `process` performs on the instance before any asynchronous
work: line 32 unconditionally stores `file.type` into `this.outputType`,
and line 40 overwrites it with `DEFAULT_TYPE` when the type passes the
image gate but is not a supported encode target. -/
def processStateUpdate (inst : PipelineInstance) (file : File) : PipelineInstance :=
  if matchesImage file.type && !isSupportedType file.type then
    { inst with outputType := DEFAULT_TYPE }
  else
    { inst with outputType := file.type }

/-! ## Helper lemmas -/

lemma log_two_pos' : 0 < Real.log 2 := Real.log_pos (by norm_num)

lemma log_two_lt_one : Real.log 2 < 1 := by
  have h := Real.log_lt_sub_one_of_pos (by norm_num : (0:ℝ) < 2) (by norm_num)
  linarith

lemma stepsFor_ge_two {s : ℝ} (h0 : 0 < s) (h1 : s < 1) : 2 ≤ stepsFor s := by
  have hlog : 0 < Real.log 2 := log_two_pos'
  have h1s : 1 < 1 / s := by rw [lt_div_iff₀ h0]; linarith
  have hx : (1 : ℝ) < (1 / s) / SCALE_FACTOR := by
    rw [SCALE_FACTOR, lt_div_iff₀ hlog, one_mul]
    calc Real.log 2 < 1 := log_two_lt_one
    _ < 1 / s := h1s
  have hceil : (1 : ℤ) < ⌈(1 / s) / SCALE_FACTOR⌉ := by
    rw [Int.lt_ceil]; exact_mod_cast hx
  have hmin : (2 : ℤ) ≤ min MAX_STEPS ⌈(1 / s) / SCALE_FACTOR⌉ := by
    rw [MAX_STEPS]; omega
  unfold stepsFor
  omega

lemma stepsFor_le_four (s : ℝ) : stepsFor s ≤ 4 := by
  have h : min MAX_STEPS ⌈(1 / s) / SCALE_FACTOR⌉ ≤ 4 := by
    rw [MAX_STEPS]; exact min_le_left _ _
  unfold stepsFor
  omega

lemma factorFor_pow {s : ℝ} (h0 : 0 < s) (hn : stepsFor s ≠ 0) :
    factorFor s ^ stepsFor s = s := by
  have hns : ((stepsFor s : ℝ)) ≠ 0 := Nat.cast_ne_zero.mpr hn
  rw [factorFor, ← Real.rpow_natCast (s ^ ((1:ℝ) / (stepsFor s : ℝ))) (stepsFor s),
    ← Real.rpow_mul h0.le]
  rw [one_div, inv_mul_cancel₀ hns, Real.rpow_one]

lemma factorFor_nonneg {s : ℝ} (h0 : 0 ≤ s) : 0 ≤ factorFor s :=
  Real.rpow_nonneg h0 _

lemma factorFor_le_one {s : ℝ} (h0 : 0 ≤ s) (h1 : s ≤ 1) : factorFor s ≤ 1 :=
  Real.rpow_le_one h0 h1 (by positivity)

lemma factorFor_lt_one {s : ℝ} (h0 : 0 ≤ s) (h1 : s < 1) (hn : stepsFor s ≠ 0) :
    factorFor s < 1 := by
  refine Real.rpow_lt_one h0 h1 ?_
  have : (0:ℝ) < (stepsFor s : ℝ) := by exact_mod_cast Nat.pos_of_ne_zero hn
  positivity

lemma drawLoop_isSome (resample : String → ℕ → ℕ → ℕ → ℕ → ℕ → ℕ) (t : String)
    (f : ℝ) : ∀ (n : ℕ), 1 ≤ n → ∀ (pix w h : ℕ),
    (drawLoop resample t f pix w h n).isSome := by
  intro n
  induction n with
  | zero => omega
  | succ k ih =>
    intro _ pix w h
    by_cases hk : k = 0
    · subst hk; simp [drawLoop]
    · simp only [drawLoop, if_neg hk]
      exact ih (by omega) _ _ _

lemma drawLoop_mem_stepDims (resample : String → ℕ → ℕ → ℕ → ℕ → ℕ → ℕ) (t : String)
    (f : ℝ) : ∀ (n pix w h : ℕ) (c : Canvas),
    drawLoop resample t f pix w h n = some c →
    (c.width, c.height) ∈ stepDimsAux f w h n := by
  intro n
  induction n with
  | zero => intro pix w h c hc; simp [drawLoop] at hc
  | succ k ih =>
    intro pix w h c hc
    by_cases hk : k = 0
    · subst hk
      cases c with
      | mk cw ch cd =>
        simp [drawLoop, Canvas.mk.injEq] at hc
        obtain ⟨h1, h2, -⟩ := hc
        subst h1
        subst h2
        simp [stepDimsAux]
    · simp only [drawLoop, if_neg hk] at hc
      simp only [stepDimsAux, List.mem_cons]
      exact Or.inr (ih _ _ _ _ hc)

lemma stepDims_ge_one {f : ℝ} (hf0 : 0 ≤ f) (hf1 : f ≤ 1) :
    ∀ (n w h : ℕ),
      (n : ℝ) + 1 ≤ (w : ℝ) * f ^ n → (n : ℝ) + 1 ≤ (h : ℝ) * f ^ n →
      ∀ p ∈ stepDimsAux f w h n, 1 ≤ p.1 ∧ 1 ≤ p.2 := by
  intro n
  induction n with
  | zero => intro w h _ _ p hp; simp [stepDimsAux] at hp
  | succ k ih =>
    intro w h hw hh p hp
    rcases hf0.eq_or_lt with hf | hf
    · exfalso
      rw [← hf] at hw
      have : ((0:ℝ)) ^ (k + 1) = 0 := by simp
      rw [this, mul_zero] at hw
      have : (0:ℝ) ≤ (k:ℝ) := Nat.cast_nonneg k
      linarith
    · -- 0 < f
      have hfk : (0:ℝ) < f ^ k := pow_pos hf k
      have hfk1 : f ^ k ≤ 1 := pow_le_one₀ hf0 hf1
      -- the one-step bound for an arbitrary starting dimension d
      have step1 : ∀ d : ℕ, (k : ℝ) + 2 ≤ (d : ℝ) * f ^ (k + 1) → 1 ≤ ⌊(d : ℝ) * f⌋₊ := by
        intro d hd
        have h1 : (d : ℝ) * f ^ (k + 1) ≤ (d : ℝ) * f := by
          have : f ^ (k + 1) ≤ f := by
            calc f ^ (k + 1) = f * f ^ k := by ring
            _ ≤ f * 1 := by nlinarith
            _ = f := mul_one f
          nlinarith [Nat.cast_nonneg (α := ℝ) d]
        have : (1 : ℝ) ≤ (d : ℝ) * f := by
          have : (0:ℝ) ≤ (k:ℝ) := Nat.cast_nonneg k
          linarith
        exact Nat.le_floor (by exact_mod_cast this)
      have step2 : ∀ d : ℕ, (k : ℝ) + 2 ≤ (d : ℝ) * f ^ (k + 1) →
          (k : ℝ) + 1 ≤ (⌊(d : ℝ) * f⌋₊ : ℝ) * f ^ k := by
        intro d hd
        have hfl : (d : ℝ) * f - 1 ≤ (⌊(d : ℝ) * f⌋₊ : ℝ) := by
          have := Nat.lt_floor_add_one ((d : ℝ) * f)
          linarith
        have : ((d : ℝ) * f - 1) * f ^ k ≤ (⌊(d : ℝ) * f⌋₊ : ℝ) * f ^ k := by
          nlinarith
        calc (k : ℝ) + 1 = ((k : ℝ) + 2) - 1 := by ring
        _ ≤ (d : ℝ) * f ^ (k + 1) - f ^ k := by linarith [hfk1]
        _ = ((d : ℝ) * f - 1) * f ^ k := by ring
        _ ≤ _ := this
      have hw' : (k : ℝ) + 2 ≤ (w : ℝ) * f ^ (k + 1) := by push_cast at hw ⊢; linarith
      have hh' : (k : ℝ) + 2 ≤ (h : ℝ) * f ^ (k + 1) := by push_cast at hh ⊢; linarith
      simp only [stepDimsAux, List.mem_cons] at hp
      rcases hp with hp | hp
      · subst hp
        exact ⟨step1 w hw', step1 h hh'⟩
      · exact ih _ _ (step2 w hw') (step2 h hh') p hp

lemma scaleFor_le_one (cfg : CompressionConfig) (w h : ℕ) : scaleFor cfg w h ≤ 1 :=
  min_le_left _ _

lemma scaleFor_pos (cfg : CompressionConfig) (hmw : 0 < cfg.maxWidth)
    (hmh : 0 < cfg.maxHeight) (w h : ℕ) : 0 < scaleFor cfg w h := by
  have h1 : (0 : ℚ) < (if w = 0 then 1 else cfg.maxWidth / (w : ℚ)) := by
    by_cases hw : w = 0
    · simp [hw]
    · rw [if_neg hw]
      have hw' : (0 : ℚ) < (w : ℚ) := by exact_mod_cast Nat.pos_of_ne_zero hw
      positivity
  have h2 : (0 : ℚ) < (if h = 0 then 1 else cfg.maxHeight / (h : ℚ)) := by
    by_cases hh : h = 0
    · simp [hh]
    · rw [if_neg hh]
      have hh' : (0 : ℚ) < (h : ℚ) := by exact_mod_cast Nat.pos_of_ne_zero hh
      positivity
  exact lt_min one_pos (lt_min h1 h2)

/-- C2: the size-guard decision returns the original bytes together with the
original dimension exactly when the candidate is strictly larger, and the
candidate bytes with the candidate dimension otherwise, so the returned
dimension always matches the returned payload. -/
theorem sizeGuard_choice (o : Blob) (od : ℕ × ℕ) (c : Blob) (cd : ℕ × ℕ) :
    (c.bytes.length > o.bytes.length → sizeGuard o od c cd = (o, od)) ∧
    (¬ c.bytes.length > o.bytes.length → sizeGuard o od c cd = (c, cd)) := by
  constructor <;> intro hgt <;> simp [sizeGuard, hgt]

theorem sizeGuard_choice_witness :
    sizeGuard ⟨"image/png", [1, 2, 3]⟩ (3, 3) ⟨"image/jpeg", [1, 2, 3, 4]⟩ (2, 2) =
      (⟨"image/png", [1, 2, 3]⟩, (3, 3)) ∧
    sizeGuard ⟨"image/png", [1, 2, 3]⟩ (3, 3) ⟨"image/jpeg", [1]⟩ (2, 2) =
      (⟨"image/jpeg", [1]⟩, (2, 2)) :=
  ⟨(sizeGuard_choice _ _ _ _).1 (by decide), (sizeGuard_choice _ _ _ _).2 (by decide)⟩

/-- C4: an input whose declared media type does not match the image pattern is
rejected immediately with the unsupported-type error, independently of every
capability (so before any decode work), with no partial output. -/
theorem process_rejects_nonimage (caps : Caps) (cfg : CompressionConfig) (file : File)
    (h : matchesImage file.type = false) :
    process caps cfg file = Except.error (PError.unsupportedType file.type) := by
  simp [process, h]

theorem process_rejects_nonimage_witness :
    process ⟨fun _ => some ⟨2, 2, 5⟩, id, fun _ _ _ _ _ _ => 0, fun _ _ _ => [1, 2, 3]⟩
      defaultConfig ⟨"text/plain", [1, 2]⟩ =
      Except.error (PError.unsupportedType "text/plain") :=
  process_rejects_nonimage _ _ _ (by decide)

/-- C7 (counterexample): a candidate of exactly equal size is not rejected —
the guard keeps it, so the claim as stated fails at this input. -/
theorem sizeGuard_equal_size_cex :
    (⟨"image/jpeg", [5, 6, 7, 8]⟩ : Blob).bytes.length ≥
      (⟨"image/png", [1, 2, 3, 4]⟩ : Blob).bytes.length ∧
    sizeGuard ⟨"image/png", [1, 2, 3, 4]⟩ (8, 8) ⟨"image/jpeg", [5, 6, 7, 8]⟩ (4, 4) ≠
      (⟨"image/png", [1, 2, 3, 4]⟩, (8, 8)) := by
  decide

/-- C7 (amended): `dist` equals `source` verbatim exactly when the re-encoded
candidate is strictly larger; a candidate of exactly equal size is kept
(the guard tests strict `>`). -/
theorem sizeGuard_strict (o : Blob) (od : ℕ × ℕ) (c : Blob) (cd : ℕ × ℕ) :
    (c.bytes.length > o.bytes.length → sizeGuard o od c cd = (o, od)) ∧
    (c.bytes.length = o.bytes.length → sizeGuard o od c cd = (c, cd)) := by
  constructor <;> intro h <;> simp [sizeGuard, h]

theorem sizeGuard_strict_witness :
    sizeGuard ⟨"image/png", [1, 2]⟩ (9, 9) ⟨"image/jpeg", [3, 4, 5]⟩ (5, 5) =
      (⟨"image/png", [1, 2]⟩, (9, 9)) ∧
    sizeGuard ⟨"image/png", [1, 2]⟩ (9, 9) ⟨"image/jpeg", [3, 4]⟩ (5, 5) =
      (⟨"image/jpeg", [3, 4]⟩, (5, 5)) :=
  ⟨(sizeGuard_strict _ _ _ _).1 (by decide), (sizeGuard_strict _ _ _ _).2 (by decide)⟩

/-- C9 (counterexample): `process` writes the instance field `outputType` at
entry, so an instance does not keep all non-config state unchanged. -/
theorem process_state_write_cex :
    (processStateUpdate ⟨⟨1600, 1600, 1⟩, "image/png"⟩ ⟨"image/webp", []⟩).outputType ≠
      "image/png" := by
  decide

/-- C9 (amended): the one instance field `process` writes besides nothing is
`outputType` (set to the file's type, or to the default on the fallback
path); `config` itself is never written. -/
theorem process_writes_only_outputType (inst : PipelineInstance) (file : File) :
    (processStateUpdate inst file).config = inst.config ∧
    (processStateUpdate inst file).outputType =
      (if matchesImage file.type && !isSupportedType file.type then DEFAULT_TYPE
        else file.type) := by
  unfold processStateUpdate
  by_cases hc : (matchesImage file.type && !isSupportedType file.type) = true
  · rw [if_pos hc, if_pos hc]
    exact ⟨rfl, rfl⟩
  · rw [if_neg hc, if_neg hc]
    exact ⟨rfl, rfl⟩

/-- C10: for every scale in (0,1) the computed step count is at least 2, the
loop therefore runs and reaches its final-step branch, and `drawImage`
returns a defined surface. -/
theorem drawImage_defined (s : ℚ) (h0 : 0 < s) (h1 : s < 1)
    (resample : String → ℕ → ℕ → ℕ → ℕ → ℕ → ℕ) (t : String) (c : Canvas) :
    2 ≤ stepsFor ((s : ℚ) : ℝ) ∧ (drawImage resample t c s).isSome = true := by
  have h0R : (0 : ℝ) < ((s : ℚ) : ℝ) := by exact_mod_cast h0
  have h1R : ((s : ℚ) : ℝ) < 1 := by exact_mod_cast h1
  have h2 := stepsFor_ge_two h0R h1R
  refine ⟨h2, ?_⟩
  unfold drawImage
  rw [if_neg h1.ne]
  exact drawLoop_isSome resample t _ _ (by omega) _ _ _

theorem drawImage_defined_witness :
    2 ≤ stepsFor ((1 / 2 : ℚ) : ℝ) ∧
    (drawImage (fun _ _ _ _ _ _ => 0) "image/jpeg" ⟨8, 8, 0⟩ (1 / 2)).isSome = true :=
  drawImage_defined (1 / 2) (by norm_num) (by norm_num) _ _ _

/-- C6: the progressive scaler computes `steps = min(4, ceil((1/scale)/ln 2))`
and `factor = scale^(1/steps)`, whose steps-fold product equals the target
scale (exactly over the reals, hence within the 1e-6 tolerance); for target
scale 0.1 the computed step count is 4. -/
theorem progressive_factor_steps :
    (∀ s : ℝ, 0 < s → s < 1 →
      factorFor s ^ stepsFor s = s ∧ |factorFor s ^ stepsFor s - s| ≤ 1 / 1000000) ∧
    stepsFor (1 / 10) = 4 := by
  constructor
  · intro s h0 h1
    have hn : stepsFor s ≠ 0 := by have := stepsFor_ge_two h0 h1; omega
    have he := factorFor_pow h0 hn
    refine ⟨he, ?_⟩
    rw [he, sub_self, abs_zero]
    norm_num
  · have hlog : 0 < Real.log 2 := log_two_pos'
    have h3 : (3 : ℤ) < ⌈(1 / (1 / 10 : ℝ)) / SCALE_FACTOR⌉ := by
      rw [Int.lt_ceil]
      push_cast
      have h10 : (1 : ℝ) / (1 / 10) = 10 := by norm_num
      rw [h10, SCALE_FACTOR]
      rw [lt_div_iff₀ hlog]
      nlinarith [log_two_lt_one]
    have hmin : min MAX_STEPS ⌈(1 / (1 / 10 : ℝ)) / SCALE_FACTOR⌉ = 4 := by
      rw [MAX_STEPS]
      omega
    unfold stepsFor
    rw [hmin]
    rfl

theorem progressive_factor_steps_witness :
    factorFor (1 / 2) ^ stepsFor (1 / 2) = 1 / 2 ∧ stepsFor (1 / 10) = 4 :=
  ⟨(progressive_factor_steps.1 (1 / 2) (by norm_num) (by norm_num)).1,
    progressive_factor_steps.2⟩

/-- C3: an image already within both configured bounds gets scale exactly 1
and the scaling stage is a pass-through returning the same surface; the
computed scale never exceeds 1 for any input. -/
theorem scale_one_passthrough (cfg : CompressionConfig) (c : Canvas)
    (resample : String → ℕ → ℕ → ℕ → ℕ → ℕ → ℕ) (t : String)
    (hw : 0 < c.width) (hh : 0 < c.height)
    (hwle : (c.width : ℚ) ≤ cfg.maxWidth) (hhle : (c.height : ℚ) ≤ cfg.maxHeight) :
    scaleFor cfg c.width c.height = 1 ∧
    drawImage resample t c (scaleFor cfg c.width c.height) = some c ∧
    ∀ (w h : ℕ), scaleFor cfg w h ≤ 1 := by
  have hs : scaleFor cfg c.width c.height = 1 := by
    unfold scaleFor
    rw [if_neg (Nat.pos_iff_ne_zero.mp hw), if_neg (Nat.pos_iff_ne_zero.mp hh)]
    have hw' : (0 : ℚ) < (c.width : ℚ) := by exact_mod_cast hw
    have hh' : (0 : ℚ) < (c.height : ℚ) := by exact_mod_cast hh
    have h1 : (1 : ℚ) ≤ cfg.maxWidth / c.width := by
      rw [le_div_iff₀ hw', one_mul]
      exact hwle
    have h2 : (1 : ℚ) ≤ cfg.maxHeight / c.height := by
      rw [le_div_iff₀ hh', one_mul]
      exact hhle
    rw [min_eq_left (le_min h1 h2)]
  refine ⟨hs, ?_, fun w h => scaleFor_le_one cfg w h⟩
  rw [hs]
  unfold drawImage
  rw [if_pos rfl]

theorem scale_one_passthrough_witness :
    scaleFor defaultConfig 10 20 = 1 ∧
    drawImage (fun _ _ _ _ _ _ => 0) "image/png" ⟨10, 20, 7⟩
      (scaleFor defaultConfig 10 20) = some ⟨10, 20, 7⟩ ∧
    ∀ (w h : ℕ), scaleFor defaultConfig w h ≤ 1 :=
  scale_one_passthrough defaultConfig ⟨10, 20, 7⟩ _ _ (by norm_num) (by norm_num)
    (by norm_num [defaultConfig]) (by norm_num [defaultConfig])

lemma sizeGuard_fst_size_le (o : Blob) (od : ℕ × ℕ) (c : Blob) (cd : ℕ × ℕ) :
    (sizeGuard o od c cd).1.bytes.length ≤ o.bytes.length := by
  by_cases hgt : c.bytes.length > o.bytes.length
  · unfold sizeGuard
    rw [if_pos hgt]
  · unfold sizeGuard
    rw [if_neg hgt]
    show c.bytes.length ≤ o.bytes.length
    omega

/-- C1: every input processed to completion yields an outcome with
`dist.blob.size ≤ source.blob.size` — the size guard enforces the size
relationship. -/
theorem process_dist_size_le_source_size (caps : Caps) (cfg : CompressionConfig)
    (file : File) (out : Outcome) (warned : Bool)
    (h : process caps cfg file = Except.ok (out, warned)) :
    out.dist.blob.bytes.length ≤ out.source.blob.bytes.length := by
  simp only [process] at h
  split at h
  · split at h
    · simp at h
    · split at h
      · simp at h
      · simp only [Except.ok.injEq, Prod.mk.injEq] at h
        obtain ⟨hout, -⟩ := h
        subst hout
        exact sizeGuard_fst_size_le _ _ _ _
  · simp at h

def capsA : Caps :=
  ⟨fun _ => some ⟨2, 2, 5⟩, id, fun _ _ _ _ _ _ => 0, fun _ _ _ => [1, 2, 3]⟩

def fileA : File := ⟨"image/png", [9, 9, 9, 9]⟩

def outA : Outcome :=
  ⟨⟨⟨"image/png", [1, 2, 3]⟩, 2, 2⟩, ⟨⟨"image/png", [9, 9, 9, 9]⟩, 2, 2⟩⟩

theorem process_dist_size_le_source_size_witness :
    outA.dist.blob.bytes.length ≤ outA.source.blob.bytes.length :=
  process_dist_size_le_source_size capsA defaultConfig fileA outA false (by
    have hscale : scaleFor defaultConfig 2 2 = 1 := by norm_num [scaleFor, defaultConfig]
    simp [process, capsA, fileA, outA, hscale, drawImage, sizeGuard, outputTypeFor,
      isSupportedType, matchesImage, matchBeginsWith, SUPPORT_MIME_TYPES, MIME_PNG,
      MIME_JPEG, MIME_WEBP, DEFAULT_TYPE])

/-- C5: an input whose type matches the image pattern but is not a supported
encode target is not rejected: the default target format is substituted for
the output only, the warning-level fallback signal is emitted, and (the
decode succeeding and the bounds being positive) the pipeline runs to
completion. -/
theorem process_fallback_continues (caps : Caps) (cfg : CompressionConfig) (file : File)
    (img : Canvas) (hmw : 0 < cfg.maxWidth) (hmh : 0 < cfg.maxHeight)
    (him : matchesImage file.type = true) (hsup : isSupportedType file.type = false)
    (hdec : caps.getOriginImage file = some img) :
    (∃ out, process caps cfg file = Except.ok (out, true)) ∧
    outputTypeFor file.type = DEFAULT_TYPE := by
  constructor
  · have hpos : 0 < scaleFor cfg (caps.getOriginInfo img).width (caps.getOriginInfo img).height :=
      scaleFor_pos cfg hmw hmh _ _
    have hle : scaleFor cfg (caps.getOriginInfo img).width (caps.getOriginInfo img).height ≤ 1 :=
      scaleFor_le_one cfg _ _
    have hsome : (drawImage caps.resample (outputTypeFor file.type) (caps.getOriginInfo img)
        (scaleFor cfg (caps.getOriginInfo img).width (caps.getOriginInfo img).height)).isSome := by
      by_cases h1 : scaleFor cfg (caps.getOriginInfo img).width (caps.getOriginInfo img).height = 1
      · unfold drawImage
        rw [if_pos h1]
        rfl
      · have hlt : scaleFor cfg (caps.getOriginInfo img).width (caps.getOriginInfo img).height < 1 :=
          lt_of_le_of_ne hle h1
        unfold drawImage
        rw [if_neg h1]
        refine drawLoop_isSome _ _ _ _ ?_ _ _ _
        have h2 := stepsFor_ge_two (s := ((scaleFor cfg (caps.getOriginInfo img).width
            (caps.getOriginInfo img).height : ℚ) : ℝ)) (by exact_mod_cast hpos) (by exact_mod_cast hlt)
        omega
    obtain ⟨result, hres⟩ := Option.isSome_iff_exists.mp hsome
    exact ⟨_, by simp only [process, him, if_true, hdec, hres, hsup, Bool.not_false]; rfl⟩
  · unfold outputTypeFor
    rw [if_neg (by rw [hsup]; exact Bool.false_ne_true)]

theorem process_fallback_continues_witness :
    (∃ out, process capsA defaultConfig ⟨"image/gif", [1, 2]⟩ = Except.ok (out, true)) ∧
    outputTypeFor "image/gif" = DEFAULT_TYPE :=
  process_fallback_continues capsA defaultConfig ⟨"image/gif", [1, 2]⟩ ⟨2, 2, 5⟩
    (by norm_num [defaultConfig]) (by norm_num [defaultConfig]) (by decide) (by decide) rfl

/-- C8 (counterexample): for the 1×10000 image under the default
configuration (positive bounds), the first step of the downscale loop
truncates the width to 0, so not every produced dimension is at least 1. -/
theorem pipeline_dim_zero_cex :
    ¬ (∀ p ∈ pipelineDims defaultConfig 1 10000, 1 ≤ p.1 ∧ 1 ≤ p.2) := by
  intro hall
  have hs : scaleFor defaultConfig 1 10000 = 4 / 25 := by
    norm_num [scaleFor, defaultConfig]
  have hsne : ¬ scaleFor defaultConfig 1 10000 = 1 := by rw [hs]; norm_num
  have hcast : ((scaleFor defaultConfig 1 10000 : ℚ) : ℝ) = 4 / 25 := by
    rw [hs]; norm_num
  have h0 : (0 : ℝ) < 4 / 25 := by norm_num
  have h1 : (4 / 25 : ℝ) < 1 := by norm_num
  have hsteps : 2 ≤ stepsFor ((scaleFor defaultConfig 1 10000 : ℚ) : ℝ) := by
    rw [hcast]; exact stepsFor_ge_two h0 h1
  have hflt : factorFor ((scaleFor defaultConfig 1 10000 : ℚ) : ℝ) < 1 := by
    rw [hcast]
    refine factorFor_lt_one h0.le h1 ?_
    have := stepsFor_ge_two h0 h1
    omega
  obtain ⟨k, hk⟩ : ∃ k, stepsFor ((scaleFor defaultConfig 1 10000 : ℚ) : ℝ) = k + 1 :=
    ⟨stepsFor ((scaleFor defaultConfig 1 10000 : ℚ) : ℝ) - 1, by omega⟩
  have hmem : ∃ q ∈ pipelineDims defaultConfig 1 10000, q.1 = 0 := by
    unfold pipelineDims
    rw [if_neg hsne, hk]
    simp only [stepDimsAux]
    refine ⟨_, List.mem_cons_self _ _, ?_⟩
    have hlt1 : ((1 : ℕ) : ℝ) * factorFor ((scaleFor defaultConfig 1 10000 : ℚ) : ℝ) < 1 := by
      rw [Nat.cast_one, one_mul]
      exact hflt
    exact Nat.floor_eq_zero.mpr hlt1
  obtain ⟨q, hq, hq0⟩ := hmem
  have := hall q hq
  omega

/-- C8 (amended): every dimension the pipeline produces — each per-step pair
of the downscale loop and the final surface's dimension — is at least 1,
provided the target dimensions `width·scale` and `height·scale` are at
least `MAX_STEPS + 1 = 5`; without such a margin the `| 0` truncation can
drive a side to 0. -/
theorem pipeline_dims_ge_one (cfg : CompressionConfig) (w h : ℕ)
    (hw : 0 < w) (hh : 0 < h)
    (h5w : 5 ≤ (w : ℚ) * scaleFor cfg w h) (h5h : 5 ≤ (h : ℚ) * scaleFor cfg w h) :
    (∀ p ∈ pipelineDims cfg w h, 1 ≤ p.1 ∧ 1 ≤ p.2) ∧
    (∀ (resample : String → ℕ → ℕ → ℕ → ℕ → ℕ → ℕ) (t : String) (pix : ℕ) (c : Canvas),
      drawImage resample t ⟨w, h, pix⟩ (scaleFor cfg w h) = some c →
      1 ≤ c.width ∧ 1 ≤ c.height) := by
  by_cases h1 : scaleFor cfg w h = 1
  · constructor
    · intro p hp
      unfold pipelineDims at hp
      rw [if_pos h1] at hp
      simp only [List.mem_singleton] at hp
      subst hp
      exact ⟨hw, hh⟩
    · intro r t pix c hc
      unfold drawImage at hc
      rw [if_pos h1] at hc
      simp only [Option.some.injEq] at hc
      subst hc
      exact ⟨hw, hh⟩
  · have hle : scaleFor cfg w h ≤ 1 := scaleFor_le_one cfg w h
    have hlt : scaleFor cfg w h < 1 := lt_of_le_of_ne hle h1
    have hpos : 0 < scaleFor cfg w h := by
      by_contra hnp
      push_neg at hnp
      have hwub : (w : ℚ) * scaleFor cfg w h ≤ 0 :=
        mul_nonpos_of_nonneg_of_nonpos (by positivity) hnp
      linarith
    have h0R : (0 : ℝ) < ((scaleFor cfg w h : ℚ) : ℝ) := by exact_mod_cast hpos
    have h1R : ((scaleFor cfg w h : ℚ) : ℝ) < 1 := by exact_mod_cast hlt
    have hn2 : 2 ≤ stepsFor ((scaleFor cfg w h : ℚ) : ℝ) := stepsFor_ge_two h0R h1R
    have hn4 : stepsFor ((scaleFor cfg w h : ℚ) : ℝ) ≤ 4 := stepsFor_le_four _
    have hf0 : 0 ≤ factorFor ((scaleFor cfg w h : ℚ) : ℝ) := factorFor_nonneg h0R.le
    have hf1 : factorFor ((scaleFor cfg w h : ℚ) : ℝ) ≤ 1 :=
      factorFor_le_one h0R.le h1R.le
    have hfn : factorFor ((scaleFor cfg w h : ℚ) : ℝ) ^ stepsFor ((scaleFor cfg w h : ℚ) : ℝ) =
        ((scaleFor cfg w h : ℚ) : ℝ) := factorFor_pow h0R (by omega)
    have hwR : (5 : ℝ) ≤ (w : ℝ) * ((scaleFor cfg w h : ℚ) : ℝ) := by exact_mod_cast h5w
    have hhR : (5 : ℝ) ≤ (h : ℝ) * ((scaleFor cfg w h : ℚ) : ℝ) := by exact_mod_cast h5h
    have hnR : ((stepsFor ((scaleFor cfg w h : ℚ) : ℝ) : ℕ) : ℝ) ≤ 4 := by exact_mod_cast hn4
    have hwn : ((stepsFor ((scaleFor cfg w h : ℚ) : ℝ) : ℕ) : ℝ) + 1 ≤
        (w : ℝ) * factorFor ((scaleFor cfg w h : ℚ) : ℝ) ^ stepsFor ((scaleFor cfg w h : ℚ) : ℝ) := by
      rw [hfn]
      linarith
    have hhn : ((stepsFor ((scaleFor cfg w h : ℚ) : ℝ) : ℕ) : ℝ) + 1 ≤
        (h : ℝ) * factorFor ((scaleFor cfg w h : ℚ) : ℝ) ^ stepsFor ((scaleFor cfg w h : ℚ) : ℝ) := by
      rw [hfn]
      linarith
    have hall := stepDims_ge_one hf0 hf1 (stepsFor ((scaleFor cfg w h : ℚ) : ℝ)) w h hwn hhn
    constructor
    · intro p hp
      unfold pipelineDims at hp
      rw [if_neg h1] at hp
      exact hall p hp
    · intro r t pix c hc
      unfold drawImage at hc
      rw [if_neg h1] at hc
      exact hall _ (drawLoop_mem_stepDims r t _ _ _ _ _ _ hc)

theorem pipeline_dims_ge_one_witness :
    (∀ p ∈ pipelineDims defaultConfig 100 100, 1 ≤ p.1 ∧ 1 ≤ p.2) ∧
    (∀ (resample : String → ℕ → ℕ → ℕ → ℕ → ℕ → ℕ) (t : String) (pix : ℕ) (c : Canvas),
      drawImage resample t ⟨100, 100, pix⟩ (scaleFor defaultConfig 100 100) = some c →
      1 ≤ c.width ∧ 1 ≤ c.height) :=
  pipeline_dims_ge_one defaultConfig 100 100 (by norm_num) (by norm_num)
    (by rw [show scaleFor defaultConfig 100 100 = 1 from by norm_num [scaleFor, defaultConfig]]
        norm_num)
    (by rw [show scaleFor defaultConfig 100 100 = 1 from by norm_num [scaleFor, defaultConfig]]
        norm_num)
